/-
  Verification of the OpenVia agent gateway core against its specification.

  The TypeScript sources are embedded shallowly:
  * JavaScript strings are Lean `String`s; `String.prototype` operations used
    by the code (trim, toLowerCase, includes, startsWith, endsWith, slice)
    are modelled by executable Lean functions below.
  * JSON values (`unknown` arguments flowing through the system) are modelled
    by the inductive `Json`.  JSON numbers are modelled as `Int`: none of the
    verified properties depend on non-integral numerics.
  * JavaScript regular expressions used by the policy engine are modelled by
    an executable Brzozowski-derivative matcher (`Reg`).
  * Code that can raise a JavaScript `TypeError` is modelled in
    `Except String`.
-/
import Mathlib

namespace OpenVia

/-! ### JavaScript string primitives -/

/-- The set of characters `String.prototype.trim` removes and `\s` matches
(ECMA-262 WhiteSpace ∪ LineTerminator). -/
def isJsWhitespace (c : Char) : Bool :=
  let n := c.toNat
  n == 0x9 || n == 0xa || n == 0xb || n == 0xc || n == 0xd || n == 0x20 ||
  n == 0xa0 || n == 0x1680 || decide (0x2000 ≤ n ∧ n ≤ 0x200a) ||
  n == 0x2028 || n == 0x2029 || n == 0x202f || n == 0x205f || n == 0x3000 ||
  n == 0xfeff

def trimLeftChars : List Char → List Char
  | [] => []
  | c :: cs => if isJsWhitespace c then trimLeftChars cs else c :: cs

/-- `String.prototype.trim`. -/
def jsTrim (s : String) : String :=
  ⟨(trimLeftChars (trimLeftChars s.data.reverse).reverse)⟩

/-- `String.prototype.toLowerCase`, restricted to ASCII.  The policy engine
only matches the lowercased string against ASCII character classes, so the
restriction is observationally adequate there. -/
def jsToLower (s : String) : String := ⟨s.data.map Char.toLower⟩

def charsIsPrefix : List Char → List Char → Bool
  | [], _ => true
  | _ :: _, [] => false
  | a :: as, b :: bs => a == b && charsIsPrefix as bs

def charsOccurs (pat : List Char) : List Char → Bool
  | [] => pat.isEmpty
  | c :: cs => charsIsPrefix pat (c :: cs) || charsOccurs pat cs

/-- `String.prototype.includes`. -/
def jsIncludes (s sub : String) : Bool := charsOccurs sub.data s.data

/-- `String.prototype.startsWith`. -/
def jsStartsWith (s pfx : String) : Bool := charsIsPrefix pfx.data s.data

/-- `String.prototype.endsWith`. -/
def jsEndsWith (s sfx : String) : Bool := charsIsPrefix sfx.data.reverse s.data.reverse

/-- `slice(n)` for an ASCII prefix of known length (code units = code
points there). -/
def jsDropChars (s : String) (n : Nat) : String := ⟨s.data.drop n⟩

/-- `slice(0, n)` (code units modelled as code points; the claims touch
only basic-plane content). -/
def jsTake (s : String) (n : Nat) : String := ⟨s.data.take n⟩

/-- `slice(0, -1)`. -/
def jsDropLast (s : String) : String := ⟨s.data.dropLast⟩

/-! ### JSON values -/

inductive Json where
  | null
  | bool (b : Bool)
  | num (n : Int)
  | str (s : String)
  | arr (items : List Json)
  | obj (fields : List (String × Json))
deriving Repr

/-- JavaScript truthiness of a JSON value. -/
def Json.truthy : Json → Bool
  | .null => false
  | .bool b => b
  | .num n => n != 0
  | .str s => s != ""
  | .arr _ => true
  | .obj _ => true

/-- Property access `v.key` on a JSON value (`undefined` ↦ `none`). -/
def Json.getField : Json → String → Option Json
  | .obj fields, k => (fields.find? (fun kv => kv.1 == k)).map (·.2)
  | _, _ => none

def lbrace : String := String.singleton (Char.ofNat 123)
def rbrace : String := String.singleton (Char.ofNat 125)
def dquote : String := String.singleton (Char.ofNat 34)

def hexDigit (n : Nat) : Char :=
  if n < 10 then Char.ofNat (48 + n) else Char.ofNat (87 + n)

/-- One character of `JSON.stringify` string quoting. -/
def escapeJsonChar (c : Char) : String :=
  let n := c.toNat
  if n == 34 then "\\" ++ dquote
  else if c == '\\' then "\\\\"
  else if c == '\n' then "\\n"
  else if c == '\r' then "\\r"
  else if c == '\t' then "\\t"
  else if n == 8 then "\\b"
  else if n == 12 then "\\f"
  else if n < 0x20 then "\\u00" ++ String.singleton (hexDigit (n / 16)) ++ String.singleton (hexDigit (n % 16))
  else String.singleton c

def quoteJsonString (s : String) : String :=
  dquote ++ String.join (s.data.map escapeJsonChar) ++ dquote

mutual

/-- `JSON.stringify` (no spacing argument).  `.slice(0, 100)` over the result
is modelled by `String.take 100`; for the basic-plane content the claims
touch, code units and code points coincide. -/
def jsonStringify : Json → String
  | .null => "null"
  | .bool true => "true"
  | .bool false => "false"
  | .num n => toString n
  | .str s => quoteJsonString s
  | .arr items => "[" ++ jsonStringifyItems items ++ "]"
  | .obj fields => lbrace ++ jsonStringifyFields fields ++ rbrace

def jsonStringifyItems : List Json → String
  | [] => ""
  | [x] => jsonStringify x
  | x :: y :: xs => jsonStringify x ++ "," ++ jsonStringifyItems (y :: xs)

def jsonStringifyFields : List (String × Json) → String
  | [] => ""
  | [kv] => quoteJsonString kv.1 ++ ":" ++ jsonStringify kv.2
  | kv :: kw :: xs => quoteJsonString kv.1 ++ ":" ++ jsonStringify kv.2 ++ "," ++ jsonStringifyFields (kw :: xs)

end

mutual

/-- Template-literal / `String(...)` coercion of a JSON value. -/
def jsTemplateString : Json → String
  | .null => "null"
  | .bool true => "true"
  | .bool false => "false"
  | .num n => toString n
  | .str s => s
  | .arr items => jsTemplateStringItems items
  | .obj _ => "[object Object]"

def jsTemplateStringItems : List Json → String
  | [] => ""
  | [x] => (match x with | .null => "" | y => jsTemplateString y)
  | x :: y :: xs => (match x with | .null => "" | z => jsTemplateString z) ++ "," ++ jsTemplateStringItems (y :: xs)

end

/-! ### Regular expressions (Brzozowski derivatives)

JavaScript regex literals from `policy.ts` are translated structurally:
  `[...]` character classes become `Reg.cls` predicates, `(?:...)` grouping is
  structural, `?`/`*`/`+` become `ropt`/`Reg.star`/`rplus`, and alternation
  becomes `Reg.alt`.  `RegExp.prototype.test` (unanchored search) is `rtest`;
  a fully `^...$`-anchored literal tested on a string is `rmatch`. -/

inductive Reg where
  | emp
  | eps
  | cls (p : Char → Bool)
  | cat (r1 r2 : Reg)
  | alt (r1 r2 : Reg)
  | star (r : Reg)

def Reg.nullable : Reg → Bool
  | .emp => false
  | .eps => true
  | .cls _ => false
  | .cat a b => a.nullable && b.nullable
  | .alt a b => a.nullable || b.nullable
  | .star _ => true

def Reg.deriv : Reg → Char → Reg
  | .emp, _ => .emp
  | .eps, _ => .emp
  | .cls p, c => if p c then .eps else .emp
  | .cat a b, c => if a.nullable then .alt (.cat (a.deriv c) b) (b.deriv c) else .cat (a.deriv c) b
  | .alt a b, c => .alt (a.deriv c) (b.deriv c)
  | .star r, c => .cat (r.deriv c) (.star r)

def Reg.matchList : Reg → List Char → Bool
  | r, [] => r.nullable
  | r, c :: cs => (r.deriv c).matchList cs

/-- Anchored match (`/^...$/.test s`). -/
def rmatch (r : Reg) (s : String) : Bool := r.matchList s.data

def anyChar : Reg := .cls (fun _ => true)

/-- Unanchored `RegExp.prototype.test`. -/
def rtest (r : Reg) (s : String) : Bool :=
  rmatch (.cat (.star anyChar) (.cat r (.star anyChar))) s

/-- Literal string as a regex. -/
def rstr (s : String) : Reg :=
  s.data.foldr (fun c acc => Reg.cat (.cls (fun x => x == c)) acc) .eps

def ropt (r : Reg) : Reg := .alt .eps r

def rplus (r : Reg) : Reg := .cat r (.star r)

/-! ### Character classes used by `PolicyEngine.isSafeReadOnlyShellCommand` -/

def inRange (c : Char) (lo hi : Nat) : Bool := decide (lo ≤ c.toNat ∧ c.toNat ≤ hi)

/-- JavaScript `\w` = `[A-Za-z0-9_]`. -/
def isWordChar (c : Char) : Bool :=
  inRange c 97 122 || inRange c 65 90 || inRange c 48 57 || c == '_'

def squoteChar : Char := Char.ofNat 39
def dquoteChar : Char := Char.ofNat 34

/-- `[-\w"':.]` -/
def flagClass (c : Char) : Bool :=
  c == '-' || isWordChar c || c == dquoteChar || c == squoteChar || c == ':' || c == '.'

/-- `[-+%:\w"'.]` -/
def dateClass (c : Char) : Bool :=
  c == '-' || c == '+' || c == '%' || c == ':' || isWordChar c || c == dquoteChar || c == squoteChar || c == '.'

/-- `[-\w=:.]` -/
def tdClass (c : Char) : Bool :=
  c == '-' || isWordChar c || c == '=' || c == ':' || c == '.'

/-- `[asnrvmpio]` -/
def unameFlagClass (c : Char) : Bool :=
  c == 'a' || c == 's' || c == 'n' || c == 'r' || c == 'v' || c == 'm' || c == 'p' || c == 'i' || c == 'o'

def wsPlus : Reg := rplus (.cls isJsWhitespace)

/-- `(?:\s+[class]+)*` -/
def tailArgs (p : Char → Bool) : Reg := .star (.cat wsPlus (rplus (.cls p)))

/-! ### The safe read-only shell patterns of `policy.ts`

Each is the structural translation of one regex literal in
`PolicyEngine.isSafeReadOnlyShellCommand`.  The source tests them with the
`i` flag against the lowercased trimmed command; since all pattern literals
are lowercase and the classes are case-symmetric where needed, matching the
lowercased string against these lowercase patterns is equivalent. -/

/-- `/^get-date(?:\s+[-\w"':.]+)*$/i` -/
def patGetDate : Reg := .cat (rstr "get-date") (tailArgs flagClass)

/-- `/^get-timezone(?:\s+[-\w"':.]+)*$/i` -/
def patGetTimezone : Reg := .cat (rstr "get-timezone") (tailArgs flagClass)

/-- `/^date(?:\s+[-+%:\w"'.]+)*$/i` -/
def patDate : Reg := .cat (rstr "date") (tailArgs dateClass)

/-- `/^timedatectl(?:\s+(?:status|show))?(?:\s+[-\w=:.]+)*$/i` -/
def patTimedatectl : Reg :=
  .cat (rstr "timedatectl")
    (.cat (ropt (.cat wsPlus (.alt (rstr "status") (rstr "show")))) (tailArgs tdClass))

/-- `/^hwclock(?:\s+(?:--show|-r))?(?:\s+[-\w=:.]+)*$/i` -/
def patHwclock : Reg :=
  .cat (rstr "hwclock")
    (.cat (ropt (.cat wsPlus (.alt (rstr "--show") (rstr "-r")))) (tailArgs tdClass))

/-- `/^w32tm(?:\s+\/query)?(?:\s+\/status)?(?:\s+\/verbose)?$/i` -/
def patW32tm : Reg :=
  .cat (rstr "w32tm")
    (.cat (ropt (.cat wsPlus (rstr "/query")))
      (.cat (ropt (.cat wsPlus (rstr "/status"))) (ropt (.cat wsPlus (rstr "/verbose")))))

/-- `/^tzutil\s+\/g$/i` -/
def patTzutil : Reg := .cat (rstr "tzutil") (.cat wsPlus (rstr "/g"))

/-- `/^whoami(?:\s+\/(?:user|groups|priv))?$/i` -/
def patWhoami : Reg :=
  .cat (rstr "whoami")
    (ropt (.cat wsPlus (.cat (rstr "/") (.alt (rstr "user") (.alt (rstr "groups") (rstr "priv"))))))

/-- `/^hostname$/i` -/
def patHostname : Reg := rstr "hostname"

/-- `/^uname(?:\s+-[asnrvmpio]+)?$/i` -/
def patUname : Reg :=
  .cat (rstr "uname") (ropt (.cat wsPlus (.cat (rstr "-") (rplus (.cls unameFlagClass)))))

/-- `/^uptime(?:\s+-(?:p|s))?$/i` -/
def patUptime : Reg :=
  .cat (rstr "uptime") (ropt (.cat wsPlus (.cat (rstr "-") (.alt (rstr "p") (rstr "s")))))

/-- `/^get-location$/i` -/
def patGetLocation : Reg := rstr "get-location"

/-- `/^pwd$/i` -/
def patPwd : Reg := rstr "pwd"

def safePatterns : List Reg :=
  [patGetDate, patGetTimezone, patDate, patTimedatectl, patHwclock, patW32tm,
   patTzutil, patWhoami, patHostname, patUname, patUptime, patGetLocation, patPwd]

def backtickChar : Char := Char.ofNat 96

/-- `/[;&]|&&|\|\||`|\$\(.*\)|>>?|<</` — the command-chaining/redirection
blocker tested (unanchored) on the trimmed command. -/
def blockedReg : Reg :=
  .alt (.cls (fun c => c == ';' || c == '&'))
    (.alt (rstr "&&")
      (.alt (rstr "||")
        (.alt (.cls (fun c => c == backtickChar))
          (.alt (.cat (rstr "$(") (.cat (.star anyChar) (rstr ")")))
            (.alt (.cat (rstr ">") (ropt (rstr ">")))
              (rstr "<<"))))))

/-- `PolicyEngine.isSafeReadOnlyShellCommand` (policy.ts). -/
def isSafeReadOnlyShellCommand (command : String) : Bool :=
  let raw := jsTrim command
  if raw == "" then false
  else if rtest blockedReg raw then false
  else safePatterns.any (fun p => rmatch p (jsToLower raw))

/-! ### Tool registry (`registry.ts`)

Zod input schemas are modelled by the inductive `Zod`; a value mirrors the
runtime object whose `_def.typeName` drives `ToolRegistry.zodToJsonSchema`.
`.describe()` descriptions only feed the `description` strings of the
projection and play no role in any claim, so they are omitted. -/

inductive Zod where
  | str
  | num
  | boolean
  | arr (t : Zod)
  | obj (shape : List (String × Zod))
  | opt (t : Zod)
  | dflt (t : Zod)
  | nullable (t : Zod)
deriving Repr

/-- `_def.typeName` of a zod schema. -/
def Zod.typeName : Zod → String
  | .str => "ZodString"
  | .num => "ZodNumber"
  | .boolean => "ZodBoolean"
  | .arr _ => "ZodArray"
  | .obj _ => "ZodObject"
  | .opt _ => "ZodOptional"
  | .dflt _ => "ZodDefault"
  | .nullable _ => "ZodNullable"

/-- The call `fieldDef.isOptional?.()` in `zodToJsonSchema`: zod stores no
`isOptional` property on `_def` (the method lives on the schema object, not
its def), so the optional call evaluates to `undefined`, which is falsy. -/
def defIsOptionalCall (_t : Zod) : Bool := false

/-- The `let type = 'string'; if (...typeName...)` chain of
`zodToJsonSchema`: wrappers (optional/default/nullable) fall through to the
`'string'` default. -/
def fieldJsonType (t : Zod) : String :=
  if t.typeName == "ZodString" then "string"
  else if t.typeName == "ZodNumber" then "number"
  else if t.typeName == "ZodBoolean" then "boolean"
  else if t.typeName == "ZodArray" then "array"
  else if t.typeName == "ZodObject" then "object"
  else "string"

/-- The JSON-Schema projection `{type, properties, required}` returned by
`ToolRegistry.zodToJsonSchema`.  `required = none` models the `undefined`
produced when no field qualifies. -/
structure ToolJsonSchema where
  type : String := "object"
  properties : List (String × String) := []
  required : Option (List String) := none
deriving Repr

/-- The `required` accumulation of `zodToJsonSchema`: a field is pushed when
`fieldDef.typeName !== 'ZodOptional' && !fieldDef.isOptional?.()`. -/
def zodRequired (shape : List (String × Zod)) : List String :=
  (shape.filter
    (fun kv => kv.2.typeName != "ZodOptional" && !(defIsOptionalCall kv.2))).map Prod.fst

/-- `ToolRegistry.zodToJsonSchema` (registry.ts).  Only a `ZodObject` exposes
a `shape` function on its def; every other schema falls to the empty object
default.  `required.length > 0 ? required : undefined` becomes the `if`. -/
def zodToJsonSchema (schema : Zod) : ToolJsonSchema :=
  match schema with
  | .obj shape =>
    { type := "object", properties := shape.map (fun kv => (kv.1, fieldJsonType kv.2)),
      required := if (zodRequired shape).length > 0 then some (zodRequired shape) else none }
  | _ => { type := "object", properties := [], required := none }

/-- A registered tool.  The executor function is external effectful code; in
the gateway embedding its results are supplied by an oracle. -/
structure ToolDefinition where
  name : String
  description : String := ""
  inputSchema : Zod := .obj []
deriving Repr

structure ToolSchemaEntry where
  name : String
  description : String
  input_schema : ToolJsonSchema
deriving Repr

/-- `ToolRegistry.getSchemas` over the registry's tool list (`Map` values in
insertion order). -/
def getSchemas (tools : List ToolDefinition) : List ToolSchemaEntry :=
  tools.map (fun t =>
    { name := t.name, description := t.description,
      input_schema := zodToJsonSchema t.inputSchema })

/-! ### Policy engine (`policy.ts`) -/

inductive PolicyDecision where
  | allow
  | deny (reason : String)
  | require_approval (prompt : String)
deriving Repr

inductive DecisionKind where
  | allow
  | deny
  | require_approval
deriving Repr, DecidableEq

def PolicyDecision.kind : PolicyDecision → DecisionKind
  | .allow => .allow
  | .deny _ => .deny
  | .require_approval _ => .require_approval

structure SessionContext where
  userId : String
  chatId : String
  allowedTools : Option (List String) := none
  deniedTools : Option (List String) := none

inductive RuleDecision where
  | allow
  | deny
  | require_approval

structure PolicyRule where
  name : String
  toolPattern : String
  decision : RuleDecision
  reason : Option String := none

/-- `PolicyEngine.matchPattern`. -/
def matchPattern (name pattern : String) : Bool :=
  if pattern == "*" then true
  else if jsEndsWith pattern "*" then jsStartsWith name (jsDropLast pattern)
  else name == pattern

/-- `x || default` on an optional JS string: both `undefined` and the empty
string fall back. -/
def jsOrString (v : Option String) (d : String) : String :=
  match v with
  | some s => if s == "" then d else s
  | none => d

/-- The rules loop of `PolicyEngine.evaluate` (first matching rule wins). -/
def applyRules (toolName : String) : List PolicyRule → Option PolicyDecision
  | [] => none
  | r :: rs =>
    if matchPattern toolName r.toolPattern then
      some (match r.decision with
        | .allow => .allow
        | .deny => .deny (jsOrString r.reason "Denied by policy rule")
        | .require_approval => .require_approval (jsOrString r.reason ("Approve " ++ toolName ++ "?")))
    else applyRules toolName rs

def defaultShellConfirmList : List String :=
  ["rm", "mv", "sudo", "su", "dd", "reboot", "shutdown", "mkfs", "chmod", "chown", ">", ">>", "|"]

def readOnlyTools : List String :=
  ["read", "read_file", "list", "ls", "search", "grep", "glob", "view"]

def writeTools : List String := ["write", "edit", "delete", "remove", "create"]

/-- `const command = (args as { command?: string })?.command || ''` followed
by the string uses `command.trim()` / `command.includes(...)`.  When the
`command` property holds a truthy non-string, those method calls raise a
`TypeError` at runtime; the coercion is hoisted here and the error carries
the JS message. -/
def getCommandArg (args : Json) : Except String String :=
  match args.getField "command" with
  | none => .ok ""
  | some v =>
    if v.truthy then
      match v with
      | .str s => .ok s
      | _ => .error "TypeError: command.trim is not a function"
    else .ok ""

/-- `(args as { path?: string; file?: string })?.path || (...)?.file ||
'unknown'`, with template-literal coercion of the winning value. -/
def getPathArg (args : Json) : String :=
  match args.getField "path" with
  | some v => if v.truthy then jsTemplateString v else
      (match args.getField "file" with
       | some w => if w.truthy then jsTemplateString w else "unknown"
       | none => "unknown")
  | none =>
      match args.getField "file" with
      | some w => if w.truthy then jsTemplateString w else "unknown"
      | none => "unknown"

/-- `PolicyEngine.evaluate` (policy.ts).  The engine state is its rule list
and shell confirm list; `Except.error` models a thrown `TypeError` (the
function is otherwise total). -/
def evaluate (rules : List PolicyRule) (shellConfirmList : List String)
    (tool : ToolDefinition) (args : Json) (session : SessionContext) :
    Except String PolicyDecision :=
  if (match session.deniedTools with
      | some l => l.contains tool.name
      | none => false) then
    .ok (.deny ("Tool " ++ dquote ++ tool.name ++ dquote ++ " is denied for this user"))
  else if (match session.allowedTools with
      | some l => !(l.contains tool.name)
      | none => false) then
    .ok (.deny ("Tool " ++ dquote ++ tool.name ++ dquote ++ " is not in allowed list"))
  else
    match applyRules tool.name rules with
    | some d => .ok d
    | none =>
      let lname := jsToLower tool.name
      if readOnlyTools.any (fun t => jsIncludes lname t) then .ok .allow
      else if lname == "bash" || lname == "shell" then
        match getCommandArg args with
        | .error e => .error e
        | .ok command =>
          if isSafeReadOnlyShellCommand command then .ok .allow
          else if shellConfirmList.any (fun item => jsIncludes command item) then
            .ok (.require_approval ("Permission Request\n\nTool: `" ++ tool.name ++
              "`\nCommand:\n```\n" ++ command ++ "\n```"))
          else .ok .allow
      else if writeTools.any (fun t => jsIncludes lname t) then
        .ok (.require_approval ("Permission Request\n\nTool: `" ++ tool.name ++
          "`\nFile: `" ++ getPathArg args ++ "`"))
      else
        .ok (.require_approval ("Permission Request\n\nTool: `" ++ tool.name ++
          "`\nArgs: `" ++ jsTake (jsonStringify args) 100 ++ "...`"))

/-! ### Audit ring buffer (`policy.ts`) -/

def MAX_AUDIT : Nat := 1000

structure AuditEntry where
  timestamp : Nat := 0
  userId : String
  chatId : String
  tool : String
  args : Json
  decision : PolicyDecision

/-- `PolicyEngine.logAudit`: push, then
`splice(0, length - maxAuditEntries)` when over capacity (drop the oldest
entries). -/
def logAudit (log : List AuditEntry) (e : AuditEntry) : List AuditEntry :=
  let log' := log ++ [e]
  if log'.length > MAX_AUDIT then log'.drop (log'.length - MAX_AUDIT) else log'

/-! ### Permission bridge (`permission-bridge.ts`, `context.ts`)

The singleton's mutable state is the registered-handler flag and the
`pendingRequests` map (modelled as a list in insertion order; ids are fresh
UUIDs, so at most one entry per id ever exists — the embedding removes every
entry with the id, which coincides with `Map.delete` under that freshness).
`delivered` is a ghost log of resolver (promise) completions: a JS promise
resolver is one-shot and the stored `resolve` closure first deletes the map
entry, then settles the promise. -/

inductive PermissionDecision where
  | allow
  | deny
deriving Repr, DecidableEq

structure RequestContext where
  userId : String
  channelId : String
deriving Repr, DecidableEq

structure PendingRequest where
  id : String
  message : String
  context : RequestContext
deriving Repr, DecidableEq

structure BridgeState where
  handlerRegistered : Bool := false
  pending : List PendingRequest := []
  delivered : List (String × PermissionDecision) := []

/-- The effect of running a stored resolver: delete the map entry, settle
the promise with the decision. -/
def resolvedState (st : BridgeState) (id : String) (d : PermissionDecision) : BridgeState :=
  { handlerRegistered := st.handlerRegistered,
    pending := st.pending.filter (fun r => r.id != id),
    delivered := st.delivered ++ [(id, d)] }

/-- `PermissionBridge.resolveRequest`: look the id up; if present, run the
stored resolver (delete from the map, settle the promise with the decision);
if absent, log a warning and do nothing. -/
def resolveRequest (st : BridgeState) (id : String) (d : PermissionDecision) : BridgeState :=
  match st.pending.find? (fun r => r.id == id) with
  | some _ => resolvedState st id d
  | none => st

/-- Outcome of one `PermissionBridge.request` call: `immediate = some d`
means the returned promise was resolved synchronously with `d`;
`handlerInvoked` records whether the registered handler was called. -/
structure RequestOutcome where
  immediate : Option PermissionDecision
  handlerInvoked : Bool
deriving Repr, DecidableEq

/-- `PermissionBridge.request`.  `ctx` is the ambient
`getRequestContext()` value (`AsyncLocalStorage`), `none` when the call site
runs outside any request scope; `freshId` stands for the generated UUID. -/
def request (st : BridgeState) (ctx : Option RequestContext) (message : String)
    (freshId : String) : BridgeState × RequestOutcome :=
  match ctx with
  | none => (st, { immediate := some .deny, handlerInvoked := false })
  | some c =>
    if !st.handlerRegistered then
      (st, { immediate := some .deny, handlerInvoked := false })
    else
      ({ st with pending := st.pending ++ [{ id := freshId, message := message, context := c }] },
       { immediate := none, handlerInvoked := true })

/-- Modelled from the spec: `findRequestByUser` is absent from
`src/utils/permission-bridge.ts` in this snapshot — only its caller
(`src/bot/feishu.ts:193`) survives.  Per spec §4.4 it returns a pending
permission request whose requester context carries the given user id, or
nothing. -/
def findRequestByUser (st : BridgeState) (userId : String) : Option PendingRequest :=
  st.pending.find? (fun r => r.context.userId == userId)

/-! ### LLM events and agent events (`adapter.ts`, gateway) -/

inductive LLMEvent where
  | text_delta (content : String)
  | tool_call (id name : String) (args : Json) (meta : Option Json := none)
  | tool_call_delta (id : String) (name : Option String) (argsFragment : String)
  | done (responseId : Option String := none)
  | error (message : String)
deriving Repr

structure ToolResult where
  success : Bool
  data : Option Json := none
  error : Option String := none
deriving Repr

inductive AgentEvent where
  | text_delta (content : String)
  | tool_start (id name : String) (args : Json)
  | tool_pending (id name : String) (args : Json) (prompt : String)
  | tool_result (id name : String) (result : ToolResult)
  | done (fullResponse : String)
  | error (message : String)
deriving Repr

structure PendingCall where
  id : String
  name : String
  args : Json
  meta : Option Json
deriving Repr

structure LLMToolResult where
  toolCallId : String
  toolName : String
  toolArgs : Json
  toolCallMeta : Option Json
  content : String
  isError : Bool
deriving Repr

/-- `JSON.stringify(result)` for a `ToolResult` (undefined fields dropped). -/
def toolResultJson (r : ToolResult) : Json :=
  .obj ([("success", .bool r.success)] ++
    (match r.data with | some d => [("data", d)] | none => []) ++
    (match r.error with | some e => [("error", .str e)] | none => []))

/-! ### Agent gateway (`part_013` / `src/core/gateway.ts`, the former being
the current revision the claims cite)

`handleMessage` is an async generator driven by external collaborators; the
embedding closes over them with an oracle:
* `chatScript i` is the (finite) `LLMEvent` stream the adapter produces on
  round `i`.  Any concrete execution induces such a script, so quantifying
  over scripts covers every behaviour of the per-round `llm.chat` calls.
* `registryGet` is the registry lookup `this.registry.get`.
* `execute i j` is the `ToolResult` of `this.executor.execute` for call `j`
  of round `i` (the executor catches its own exceptions and always returns a
  `ToolResult`).
* `permission = some f` models a supplied `onPermissionRequest` callback
  whose boolean answer for call `j` of round `i` is `f i j`; `none` models
  an absent callback (`approved` stays `false`). -/

structure GatewayEnv where
  chatScript : Nat → List LLMEvent
  registryGet : String → Option ToolDefinition
  execute : Nat → Nat → ToolResult
  permission : Option (Nat → Nat → Bool)
  rules : List PolicyRule := []
  shellConfirmList : List String := defaultShellConfirmList

/-- Result of consuming one round's LLM stream: `ret evs` when the generator
returned during the stream (terminal `error`, or `done` with no pending tool
calls), `next` with the events emitted so far, the accumulated
`fullResponse`, the pending tool calls and the `previousResponseId`. -/
inductive StreamOutcome where
  | ret (events : List AgentEvent)
  | next (events : List AgentEvent) (fullResponse : String)
      (pending : List PendingCall) (prevId : Option String)

/-- The `for await (const event of this.llm.chat(...))` loop of
`handleMessage`:
* `text_delta` — accumulate and re-emit;
* `tool_call` — push when the name is non-empty, else ignore (warn);
* `tool_call_delta` — no case in the switch, ignored;
* `error` — emit and return;
* `done` — record a truthy `responseId`; if no tool calls are pending, emit
  `done(fullResponse)` and return, else keep consuming. -/
def consumeLLM : List LLMEvent → String → List PendingCall → Option String → StreamOutcome
  | [], fr, pending, prev => .next [] fr pending prev
  | .text_delta c :: rest, fr, pending, prev =>
    (match consumeLLM rest (fr ++ c) pending prev with
     | .ret evs => .ret (.text_delta c :: evs)
     | .next evs fr' p' pr' => .next (.text_delta c :: evs) fr' p' pr')
  | .tool_call id name args meta :: rest, fr, pending, prev =>
    if name != "" then consumeLLM rest fr (pending ++ [⟨id, name, args, meta⟩]) prev
    else consumeLLM rest fr pending prev
  | .tool_call_delta _ _ _ :: rest, fr, pending, prev => consumeLLM rest fr pending prev
  | .error m :: _, _, _, _ => .ret [.error m]
  | .done rid :: rest, fr, pending, prev =>
    let prev' := match rid with
      | some r => if r != "" then some r else prev
      | none => prev
    if pending.isEmpty then .ret [.done fr]
    else consumeLLM rest fr pending prev'

structure CallsOut where
  events : List AgentEvent := []
  results : List LLMToolResult := []
  audits : List AuditEntry := []
  crash : Option String := none

def mkLLMToolResult (tc : PendingCall) (r : ToolResult) : LLMToolResult :=
  { toolCallId := tc.id, toolName := tc.name, toolArgs := tc.args,
    toolCallMeta := tc.meta, content := jsonStringify (toolResultJson r),
    isError := !r.success }

/-- One pass of the `for (const tc of pendingToolCalls)` body of
`handleMessage`: emit `tool_start`; unknown tools become a tool-result
error; otherwise the policy decision routes to executor / denial / approval
round-trip, each emitting one `tool_result`.  `policy.evaluate` throwing
(its `Except.error` case) aborts the generator: only `tool_start` was
emitted and `crash` records the exception. -/
def processOne (env : GatewayEnv) (session : SessionContext) (round idx : Nat)
    (tc : PendingCall) : CallsOut :=
  let startEv := AgentEvent.tool_start tc.id tc.name tc.args
  match env.registryGet tc.name with
  | none =>
    let result : ToolResult := { success := false, error := some ("Tool not found: " ++ tc.name) }
    { events := [startEv, .tool_result tc.id tc.name result],
      results := [mkLLMToolResult tc result] }
  | some toolDef =>
    match evaluate env.rules env.shellConfirmList toolDef tc.args session with
    | .error e => { events := [startEv], crash := some e }
    | .ok decision =>
      let audit : AuditEntry :=
        { userId := session.userId, chatId := session.chatId, tool := tc.name,
          args := tc.args, decision := decision }
      match decision with
      | .deny reason =>
        let result : ToolResult := { success := false, error := some reason }
        { events := [startEv, .tool_result tc.id tc.name result],
          results := [mkLLMToolResult tc result], audits := [audit] }
      | .require_approval prompt =>
        let approved := match env.permission with
          | some f => f round idx
          | none => false
        let result : ToolResult :=
          if approved then env.execute round idx
          else { success := false, error := some "User denied permission" }
        { events := [startEv, .tool_pending tc.id tc.name tc.args prompt,
            .tool_result tc.id tc.name result],
          results := [mkLLMToolResult tc result], audits := [audit] }
      | .allow =>
        let result := env.execute round idx
        { events := [startEv, .tool_result tc.id tc.name result],
          results := [mkLLMToolResult tc result], audits := [audit] }

/-- Sequencing of loop passes: a crash stops the loop (nothing after it
runs); otherwise outputs concatenate in order. -/
def seqCalls (a b : CallsOut) : CallsOut :=
  match a.crash with
  | some e => { events := a.events, results := a.results, audits := a.audits, crash := some e }
  | none =>
    { events := a.events ++ b.events, results := a.results ++ b.results,
      audits := a.audits ++ b.audits, crash := b.crash }

/-- The whole `for (const tc of pendingToolCalls)` loop. -/
def processCalls (env : GatewayEnv) (session : SessionContext) (round : Nat) :
    Nat → List PendingCall → CallsOut
  | _, [] => {}
  | idx, tc :: rest =>
    seqCalls (processOne env session round idx tc) (processCalls env session round (idx + 1) rest)

/-- Result of a whole `handleMessage` run: the emitted `AgentEvent`s, the
audit entries passed to `policy.logAudit`, and `crash = some e` when the
generator aborted with an uncaught exception. -/
structure RunOut where
  events : List AgentEvent := []
  audits : List AuditEntry := []
  crash : Option String := none

def capMessage (n : Nat) : String :=
  "Max iterations (" ++ toString n ++ ") reached. Task may be incomplete."

/-- The `for (let iteration = ...)` loop of `handleMessage`, with `fuel`
iterations left and `round` iterations already performed.
`lastToolResults` is threaded for fidelity (it shapes the next request to
the LLM, whose answer the script already fixes per round). -/
def handleLoop (env : GatewayEnv) (session : SessionContext) (maxIter : Nat) :
    Nat → Nat → String → Option String → List LLMToolResult → RunOut
  | 0, _, _, _, _ => { events := [.error (capMessage maxIter)] }
  | fuel + 1, round, fr, prev, _lastResults =>
    match consumeLLM (env.chatScript round) fr [] prev with
    | .ret evs => { events := evs }
    | .next evs fr' pending prev' =>
      if pending.isEmpty then { events := evs ++ [.done fr'] }
      else
        let calls := processCalls env session round 0 pending
        match calls.crash with
        | some e => { events := evs ++ calls.events, audits := calls.audits, crash := some e }
        | none =>
          let rest := handleLoop env session maxIter fuel (round + 1) fr' prev' calls.results
          { events := evs ++ calls.events ++ rest.events,
            audits := calls.audits ++ rest.audits,
            crash := rest.crash }

/-- `config.maxIterations || 10` from the `AgentGateway` constructor: both
an absent and a zero configuration fall back to 10. -/
def normalizeIter : Option Nat → Nat
  | none => 10
  | some 0 => 10
  | some n => n

/-- `AgentGateway.handleMessage`.  `cfgMaxIterations` is the constructor's
`config.maxIterations`. -/
def handleMessage (env : GatewayEnv) (session : SessionContext)
    (cfgMaxIterations : Option Nat := none) : RunOut :=
  handleLoop env session (normalizeIter cfgMaxIterations) (normalizeIter cfgMaxIterations) 0 "" none []

/-! ### Chat-completions adapter (`openai-format.ts`)

`parseSSEStream` splits the response into lines and feeds each `data:`
payload to `parseChatCompletionsEvent`; a frame whose `JSON.parse` throws is
caught and skipped.  Both `JSON.parse` call sites are the JS builtin; the
embedding abstracts them as oracles: `parseChunk` for the SSE payload
(returning the chunk structure the parser then walks, `none` when the parse
throws) and `jsonParse` for accumulated tool-argument strings. -/

structure ToolCallFragment where
  index : Nat
  id : Option String := none
  fnName : Option String := none
  fnArgs : Option String := none

structure ChoiceDelta where
  content : Option String := none
  tool_calls : Option (List ToolCallFragment) := none

structure ChatChoice where
  delta : ChoiceDelta := {}
  finish_reason : Option String := none

structure ChatChunk where
  choices : List ChatChoice := []

/-- Per-index accumulator `{ id: '', name: '', args: '' }` of
`state.pendingToolCalls`. -/
structure Accum where
  id : String := ""
  name : String := ""
  args : String := ""

/-- `state.pendingToolCalls` (a `Map` in insertion order). -/
abbrev ParserState := List (Nat × Accum)

/-- The three `if (tc.id / tc.function?.name / tc.function?.arguments)`
updates on one accumulator, returning the `tool_call_delta` events emitted. -/
def applyFragmentFields (f : ToolCallFragment) (a : Accum) : List LLMEvent × Accum :=
  let a1 := match f.id with
    | some s => if s != "" then { a with id := s } else a
    | none => a
  let a2 := match f.fnName with
    | some s => if s != "" then { a1 with name := s } else a1
    | none => a1
  match f.fnArgs with
  | some s =>
    if s != "" then
      let a3 := { a2 with args := a2.args ++ s }
      ([.tool_call_delta a3.id (if a3.name == "" then none else some a3.name) s], a3)
    else ([], a2)
  | none => ([], a2)

def updateEntry (f : ToolCallFragment) : ParserState → List LLMEvent × ParserState
  | [] => ([], [])
  | (k, a) :: rest =>
    if k == f.index then
      let (evs, a') := applyFragmentFields f a
      (evs, (k, a') :: rest)
    else
      let (evs, rest') := updateEntry f rest
      (evs, (k, a) :: rest')

def applyFragment (st : ParserState) (f : ToolCallFragment) : List LLMEvent × ParserState :=
  let st1 := if (st.find? (fun e => e.1 == f.index)).isSome then st
    else st ++ [(f.index, { id := "", name := "", args := "" })]
  updateEntry f st1

def applyFragments : ParserState → List ToolCallFragment → List LLMEvent × ParserState
  | st, [] => ([], st)
  | st, f :: fs =>
    let (evs, st1) := applyFragment st f
    let (evs', st2) := applyFragments st1 fs
    (evs ++ evs', st2)

/-- The `finish_reason ∈ {tool_calls, stop}` flush: for every accumulator
with a non-empty id and name, parse the accumulated argument string
(`tc.args ? JSON.parse(tc.args) : {}`); a parse failure becomes an `error`
LLM event. -/
def finishEvents (jsonParse : String → Option Json) : ParserState → List LLMEvent
  | [] => []
  | (_, a) :: rest =>
    (if a.id != "" && a.name != "" then
      (if a.args == "" then [LLMEvent.tool_call a.id a.name (Json.obj []) none]
       else match jsonParse a.args with
         | some j => [LLMEvent.tool_call a.id a.name j none]
         | none => [LLMEvent.error ("Failed to parse tool args: " ++ a.args)])
     else []) ++ finishEvents jsonParse rest

def applyChoice (jsonParse : String → Option Json) (st : ParserState) (c : ChatChoice) :
    List LLMEvent × ParserState :=
  let contentEvs : List LLMEvent := match c.delta.content with
    | some s => if s != "" then [.text_delta s] else []
    | none => []
  let (fragEvs, st1) := match c.delta.tool_calls with
    | some fs => applyFragments st fs
    | none => ([], st)
  if c.finish_reason == some "tool_calls" || c.finish_reason == some "stop" then
    (contentEvs ++ fragEvs ++ finishEvents jsonParse st1, [])
  else (contentEvs ++ fragEvs, st1)

def applyChoices (jsonParse : String → Option Json) : ParserState → List ChatChoice →
    List LLMEvent × ParserState
  | st, [] => ([], st)
  | st, c :: cs =>
    let (evs, st1) := applyChoice jsonParse st c
    let (evs', st2) := applyChoices jsonParse st1 cs
    (evs ++ evs', st2)

/-- `OpenAIFormatAdapter.parseChatCompletionsEvent` on one parsed chunk
(usage bookkeeping omitted: it feeds only the final `done` event's usage
payload, which no claim touches). -/
def parseChatCompletionsEvent (jsonParse : String → Option Json) (chunk : ChatChunk)
    (st : ParserState) : List LLMEvent × ParserState :=
  applyChoices jsonParse st chunk.choices

/-- `OpenAIFormatAdapter.parseSSEStream` over the already-reassembled lines:
blank lines, `[DONE]` markers and non-`data:` lines are skipped; a payload
whose `JSON.parse` throws (`parseChunk _ = none`) is caught, logged and
skipped, the stream continuing with no event for that frame. -/
def parseSSELines (parseChunk : String → Option ChatChunk) (jsonParse : String → Option Json) :
    List String → ParserState → List LLMEvent
  | [], _ => []
  | line :: rest, st =>
    let trimmed := jsTrim line
    if trimmed == "" || trimmed == "data: [DONE]" then parseSSELines parseChunk jsonParse rest st
    else if !(jsStartsWith trimmed "data: ") then parseSSELines parseChunk jsonParse rest st
    else
      let jsonStr := jsDropChars trimmed 6
      if jsonStr == "[DONE]" then parseSSELines parseChunk jsonParse rest st
      else match parseChunk jsonStr with
        | none => parseSSELines parseChunk jsonParse rest st
        | some chunk =>
          let (evs, st') := parseChatCompletionsEvent jsonParse chunk st
          evs ++ parseSSELines parseChunk jsonParse rest st'

/-! ### Claim-side definitions

These restate parts of the specification in its own words, to be compared
with the source embeddings above. -/

/-- Claim C1's reading of the safe branch: the command matches one of the
fixed safe read-only regexes and contains none of the blocked
chaining/redirection constructs (stated as a conjunction rather than the
source's early returns). -/
def claimSafeBashCommand (cmd : String) : Bool :=
  (safePatterns.any fun p => rmatch p (jsToLower (jsTrim cmd))) &&
  !(rtest blockedReg (jsTrim cmd))

/-- Claim C1's decision ladder for a `bash`/`shell` tool: safe → allow;
else confirm-list substring → require_approval; else allow. -/
def claimBashKind (cmd : String) : DecisionKind :=
  if claimSafeBashCommand cmd then .allow
  else if defaultShellConfirmList.any (fun item => jsIncludes cmd item) then .require_approval
  else .allow

/-- The arguments' `command` property, when present and truthy, is a string
— exactly the condition under which `PolicyEngine.evaluate` cannot raise a
`TypeError`. -/
def commandFieldOk (args : Json) : Prop :=
  ∀ v, args.getField "command" = some v → v.truthy = true → ∃ s, v = Json.str s

/-- All tool-call events of an LLM stream carry arguments satisfying
`commandFieldOk`. -/
def eventArgsOk (ev : LLMEvent) : Prop :=
  ∀ id n a m, ev = .tool_call id n a m → commandFieldOk a

/-- The control-flow skeleton of `consumeLLM`, independent of the
accumulated text and response id: `none` when the generator returns during
the stream, `some pending` with the collected tool calls otherwise. -/
def streamCalls : List LLMEvent → List PendingCall → Option (List PendingCall)
  | [], pd => some pd
  | .text_delta _ :: rest, pd => streamCalls rest pd
  | .tool_call id name args meta :: rest, pd =>
    if name != "" then streamCalls rest (pd ++ [⟨id, name, args, meta⟩])
    else streamCalls rest pd
  | .tool_call_delta _ _ _ :: rest, pd => streamCalls rest pd
  | .error _ :: _, _ => none
  | .done _ :: rest, pd => if pd.isEmpty then none else streamCalls rest pd

/-- An LLM round that reaches the tool-execution phase with at least one
pending call — claim C4's "the LLM emits tool calls on every round". -/
def roundEmitsCalls (evts : List LLMEvent) : Bool :=
  match streamCalls evts [] with
  | some pd => !pd.isEmpty
  | none => false

/-- Number of tool calls a round executes. -/
def roundCallCount (evts : List LLMEvent) : Nat :=
  match streamCalls evts [] with
  | some pd => pd.length
  | none => 0

def isToolStartEv : AgentEvent → Bool
  | .tool_start _ _ _ => true
  | _ => false

def isToolResultEv : AgentEvent → Bool
  | .tool_result _ _ _ => true
  | _ => false

def countToolStart (evs : List AgentEvent) : Nat := (evs.filter isToolStartEv).length

/-- Claim C4's terminal events. -/
def terminalEvent (e : AgentEvent) : Prop :=
  (∃ s, e = .done s) ∨ (∃ m, e = .error m)

/-! ### Concrete fixtures used by witnesses and counterexamples -/

def sess0 : SessionContext := { userId := "u1", chatId := "c1" }

def bashToolDef : ToolDefinition := { name := "bash" }

/-- Gateway whose LLM emits a `bash` call with a numeric `command` field. -/
def crashEnv : GatewayEnv :=
  { chatScript := fun _ => [.tool_call "c1" "bash" (Json.obj [("command", Json.num 1)]), .done none],
    registryGet := fun n => if n == "bash" then some bashToolDef else none,
    execute := fun _ _ => { success := true },
    permission := none }

/-- Gateway whose LLM requests an unregistered tool on every round. -/
def capEnv : GatewayEnv :=
  { chatScript := fun _ => [.tool_call "c1" "noop" (Json.obj []), .done none],
    registryGet := fun _ => none,
    execute := fun _ _ => { success := true },
    permission := none }

/-- Test double for the SSE-payload `JSON.parse`: `F1` carries a tool-call
fragment accumulating the argument string `oops`, `F2` finishes the stream;
everything else is a malformed frame. -/
def demoFragment : ToolCallFragment :=
  { index := 0, id := some "c1", fnName := some "bash", fnArgs := some "oops" }

def demoChunkParse : String → Option ChatChunk := fun s =>
  if s == "F1" then some { choices := [{ delta := { tool_calls := some [demoFragment] } }] }
  else if s == "F2" then some { choices := [{ finish_reason := some "stop" }] }
  else none

/-- Test double for the tool-argument `JSON.parse`: every string is
malformed. -/
def demoArgsParse : String → Option Json := fun _ => none

/-- Gateway whose LLM stream opens with a terminal error event. -/
def errEnv : GatewayEnv :=
  { chatScript := fun _ => [.error "boom"],
    registryGet := fun _ => none,
    execute := fun _ _ => { success := true },
    permission := none }

/-- Gateway fed by the adapter output on the demo frames (`streamRequest`
appends the final `done` after the SSE stream ends). -/
def c6Env : GatewayEnv :=
  { chatScript := fun _ =>
      parseSSELines demoChunkParse demoArgsParse ["data: garbage", "data: F1", "data: F2"] [] ++
        [.done none],
    registryGet := fun n => if n == "bash" then some bashToolDef else none,
    execute := fun _ _ => { success := true },
    permission := none }

/-- Bridge fixture: one pending request with id `a`. -/
def bridgeStW : BridgeState :=
  { handlerRegistered := true,
    pending := [{ id := "a", message := "m", context := { userId := "u", channelId := "ch" } }] }

/-- The single pending request of `bridgeStW`. -/
def reqA : PendingRequest :=
  { id := "a", message := "m", context := { userId := "u", channelId := "ch" } }

/-- Bridge fixture: one pending request raised by user `u1`. -/
def bridgeStFind : BridgeState :=
  { pending := [{ id := "id1", message := "m", context := { userId := "u1", channelId := "feishu" } }] }

/-- The single pending request of `bridgeStFind`. -/
def reqU1 : PendingRequest :=
  { id := "id1", message := "m", context := { userId := "u1", channelId := "feishu" } }

/-- Fixture tool whose name matches no built-in heuristic. -/
def mytoolDef : ToolDefinition := { name := "mytool" }

/-- Args of the shape the Gemini adapter produces for unparseable tool
arguments: the raw string wrapped as `{_raw: ...}`. -/
def rawArgs : Json := Json.obj [("_raw", Json.str "oops")]

/-- Fixture tool with a required, a nullable and an optional field. -/
def zodToolW : ToolDefinition :=
  { name := "write_file",
    inputSchema := Zod.obj [("path", Zod.str), ("note", Zod.nullable Zod.str), ("x", Zod.opt Zod.str)] }

/-! ## Theorems -/

/-! ### Permission bridge -/

/-- C10: `PermissionBridge.request` resolves immediately to deny, invokes no
handler and creates no pending entry whenever the ambient request context is
absent — whether or not a handler is registered (the context check precedes
the handler check). -/
theorem request_without_context_denies (st : BridgeState) (msg freshId : String) :
    request st none msg freshId = (st, { immediate := some .deny, handlerInvoked := false }) :=
  rfl

lemma find?_filter_ne_id (l : List PendingRequest) (id : String) :
    (l.filter (fun r => r.id != id)).find? (fun r => r.id == id) = none := by
  rw [List.find?_eq_none]
  intro x hx
  have hmem := List.mem_filter.mp hx
  simpa using hmem.2

/-- C8: `resolveRequest` is idempotent.  A first call on a pending id
completes its resolver with the decision and removes it from the pending
map; any second call with the same id (same or different decision) leaves
the bridge state — including the already-delivered decision — unchanged. -/
theorem resolveRequest_idempotent (st : BridgeState) (id : String)
    (d d' : PermissionDecision) :
    resolveRequest (resolveRequest st id d) id d' = resolveRequest st id d ∧
    (∀ r, st.pending.find? (fun x => x.id == id) = some r →
      (resolveRequest st id d).pending.find? (fun x => x.id == id) = none ∧
      (resolveRequest st id d).delivered = st.delivered ++ [(id, d)]) := by
  constructor
  · cases h : st.pending.find? (fun x => x.id == id) with
    | none =>
      have hst : resolveRequest st id d = st := by
        unfold resolveRequest; rw [h]
      have hst' : resolveRequest st id d' = st := by
        unfold resolveRequest; rw [h]
      rw [hst, hst']
    | some r =>
      have hst : resolveRequest st id d = resolvedState st id d := by
        unfold resolveRequest; rw [h]
      rw [hst]
      unfold resolveRequest
      have : (resolvedState st id d).pending.find? (fun x => x.id == id) = none :=
        find?_filter_ne_id st.pending id
      rw [this, ← hst]
  · intro r hr
    have hst : resolveRequest st id d = resolvedState st id d := by
      unfold resolveRequest; rw [hr]
    rw [hst]
    exact ⟨find?_filter_ne_id st.pending id, rfl⟩

/-- Witness for C8 at a bridge holding one pending request. -/
theorem resolveRequest_idempotent_witness :
    resolveRequest (resolveRequest bridgeStW "a" .allow) "a" .deny =
      resolveRequest bridgeStW "a" .allow ∧
    (resolveRequest bridgeStW "a" .allow).pending.find? (fun x => x.id == "a") = none ∧
    (resolveRequest bridgeStW "a" .allow).delivered = [("a", PermissionDecision.allow)] :=
  ⟨(resolveRequest_idempotent bridgeStW "a" .allow .deny).1,
   (resolveRequest_idempotent bridgeStW "a" .allow .deny).2 reqA rfl⟩

/-- C9: `findRequestByUser` returns a pending request whose requester
context carries the given user id, or nothing when no pending request does. -/
theorem findRequestByUser_spec (st : BridgeState) (uid : String) :
    (∀ r, findRequestByUser st uid = some r → r ∈ st.pending ∧ r.context.userId = uid) ∧
    (findRequestByUser st uid = none → ∀ r ∈ st.pending, r.context.userId ≠ uid) := by
  constructor
  · intro r hr
    refine ⟨List.mem_of_find?_eq_some hr, ?_⟩
    have := List.find?_some hr
    simpa using this
  · intro hnone r hr
    have := List.find?_eq_none.mp hnone r hr
    simpa using this

/-- Witness for C9 on a bridge with one pending request for user `u1`. -/
theorem findRequestByUser_spec_witness :
    reqU1 ∈ bridgeStFind.pending ∧ reqU1.context.userId = "u1" :=
  (findRequestByUser_spec bridgeStFind "u1").1 reqU1 rfl

/-! ### Audit ring buffer -/

lemma foldl_logAudit_eq (entries : List AuditEntry) :
    entries.foldl logAudit [] = entries.drop (entries.length - MAX_AUDIT) := by
  have hM : 0 < MAX_AUDIT := by decide
  induction entries using List.reverseRecOn with
  | nil => rfl
  | append_singleton es e ih =>
    rw [List.foldl_append, List.foldl_cons, List.foldl_nil, ih]
    unfold logAudit
    by_cases h : es.length < MAX_AUDIT
    · have h0 : es.length - MAX_AUDIT = 0 := by omega
      rw [h0, List.drop_zero]
      have hlen : ¬ ((es ++ [e]).length > MAX_AUDIT) := by
        simp only [List.length_append, List.length_singleton]
        omega
      rw [if_neg hlen]
      have h1 : (es ++ [e]).length - MAX_AUDIT = 0 := by
        simp only [List.length_append, List.length_singleton]
        omega
      rw [h1, List.drop_zero]
    · have hdl : (es.drop (es.length - MAX_AUDIT)).length = MAX_AUDIT := by
        rw [List.length_drop]; omega
      have hlen : (es.drop (es.length - MAX_AUDIT) ++ [e]).length > MAX_AUDIT := by
        simp only [List.length_append, List.length_singleton, hdl]
        omega
      rw [if_pos hlen]
      have h1 : (es.drop (es.length - MAX_AUDIT) ++ [e]).length - MAX_AUDIT = 1 := by
        simp only [List.length_append, List.length_singleton, hdl]
        omega
      rw [h1]
      have hsplit : (es ++ [e]).drop (es.length - MAX_AUDIT) =
          es.drop (es.length - MAX_AUDIT) ++ [e] := by
        rw [List.drop_append_eq_append_drop]
        have hz : es.length - MAX_AUDIT - es.length = 0 := by omega
        rw [hz, List.drop_zero]
      rw [← hsplit, List.drop_drop]
      have hidx : es.length - MAX_AUDIT + 1 = (es ++ [e]).length - MAX_AUDIT := by
        simp only [List.length_append, List.length_singleton]
        omega
      rw [hidx]

lemma seqCalls_crash_none (a b : CallsOut) :
    (seqCalls a b).crash = none ↔ a.crash = none ∧ b.crash = none := by
  unfold seqCalls
  cases a.crash <;> simp

lemma seqCalls_audits_of_none (a b : CallsOut) (h : a.crash = none) :
    (seqCalls a b).audits = a.audits ++ b.audits := by
  unfold seqCalls
  rw [h]

lemma seqCalls_events_of_none (a b : CallsOut) (h : a.crash = none) :
    (seqCalls a b).events = a.events ++ b.events := by
  unfold seqCalls
  rw [h]

lemma processOne_audits (env : GatewayEnv) (session : SessionContext)
    (round idx : Nat) (tc : PendingCall)
    (h : (processOne env session round idx tc).crash = none) :
    (processOne env session round idx tc).audits.length =
      (if (env.registryGet tc.name).isSome then 1 else 0) := by
  unfold processOne at h ⊢
  cases hreg : env.registryGet tc.name with
  | none => simp
  | some toolDef =>
    rw [hreg] at h
    dsimp only at h ⊢
    cases heval : evaluate env.rules env.shellConfirmList toolDef tc.args session with
    | error e =>
      rw [heval] at h
      simp at h
    | ok decision =>
      cases decision <;> simp

lemma processCalls_audits_of_found (env : GatewayEnv) (session : SessionContext)
    (round : Nat) :
    ∀ (pending : List PendingCall) (idx : Nat),
      (processCalls env session round idx pending).crash = none →
      (processCalls env session round idx pending).audits.length =
        (pending.filter (fun tc => (env.registryGet tc.name).isSome)).length := by
  intro pending
  induction pending with
  | nil => intro idx _; rfl
  | cons tc rest ih =>
    intro idx hcrash
    rw [processCalls] at hcrash ⊢
    obtain ⟨h1, h2⟩ := (seqCalls_crash_none _ _).mp hcrash
    rw [seqCalls_audits_of_none _ _ h1, List.length_append,
      processOne_audits env session round idx tc h1, ih (idx + 1) h2, List.filter_cons]
    cases hreg : (env.registryGet tc.name).isSome
    · simp [hreg]
    · simp [hreg]
      omega

/-- C7: the audit ring buffer.  Folding `logAudit` over the `N` entries
produced by `N` evaluate calls (the gateway logs exactly one entry per
policy-evaluated tool call, third conjunct) leaves `min N 1000` entries,
namely the most recent ones in FIFO order. -/
theorem logAudit_ring (entries : List AuditEntry) :
    (entries.foldl logAudit []).length = min entries.length MAX_AUDIT ∧
    entries.foldl logAudit [] = entries.drop (entries.length - MAX_AUDIT) ∧
    (∀ (env : GatewayEnv) (session : SessionContext) (round : Nat)
       (pending : List PendingCall),
      (processCalls env session round 0 pending).crash = none →
      (processCalls env session round 0 pending).audits.length =
        (pending.filter (fun tc => (env.registryGet tc.name).isSome)).length) := by
  refine ⟨?_, foldl_logAudit_eq entries, ?_⟩
  · rw [foldl_logAudit_eq, List.length_drop]
    omega
  · intro env session round pending hcrash
    exact processCalls_audits_of_found env session round pending 0 hcrash

/-- Witness for C7: three entries stay three entries in order; the gateway
run of `capEnv` logs one entry per found tool (`noop` is never found, so
zero). -/
theorem logAudit_ring_witness :
    (([ { userId := "u1", chatId := "c1", tool := "a", args := Json.null, decision := .allow },
        { userId := "u1", chatId := "c1", tool := "b", args := Json.null, decision := .allow },
        { userId := "u1", chatId := "c1", tool := "c", args := Json.null, decision := .allow } ] :
      List AuditEntry).foldl logAudit []).length = min 3 MAX_AUDIT ∧
    (processCalls capEnv sess0 0 0 [⟨"c1", "noop", Json.obj [], none⟩]).audits.length =
      (([⟨"c1", "noop", Json.obj [], none⟩] : List PendingCall).filter
        (fun tc => (capEnv.registryGet tc.name).isSome)).length := by
  constructor
  · exact (logAudit_ring _).1
  · exact (logAudit_ring []).2.2 capEnv sess0 0 [⟨"c1", "noop", Json.obj [], none⟩] rfl

/-! ### Tool registry schema projection -/

/-- C5 counterexample: claim C5 states that fields wrapped as
optional/default/nullable are absent from `required` in the `getSchemas`
projection.  In `zodToJsonSchema`, the guard is only
`typeName !== 'ZodOptional'` (plus a vacuous `!fieldDef.isOptional?.()`, as
`_def` carries no such method), so a `ZodNullable`- or `ZodDefault`-wrapped
field lands in `required`: for the schema
`{path: string, note: string.nullable(), limit: number.default(...)}` the
projection requires all three fields. -/
theorem zod_required_includes_nullable_default :
    (zodToJsonSchema (Zod.obj
      [("path", Zod.str), ("note", Zod.nullable Zod.str), ("limit", Zod.dflt Zod.num)])).required =
      some ["path", "note", "limit"] := rfl

/-- C5 (amended): in the `getSchemas` projection of a Zod object schema with
distinct field names, `required` lists exactly the fields whose top-level
wrapper is not `ZodOptional`; `ZodDefault`/`ZodNullable` wrappers (and any
other wrapper) are *included* in `required`, and no transitive unwrapping
occurs. -/
theorem getSchemas_required_iff (tools : List ToolDefinition) (t : ToolDefinition)
    (shape : List (String × Zod)) (ht : t ∈ tools) (hs : t.inputSchema = .obj shape)
    (hnd : (shape.map Prod.fst).Nodup) :
    ∃ entry ∈ getSchemas tools, entry.name = t.name ∧
      entry.input_schema = zodToJsonSchema t.inputSchema ∧
      ∀ kv ∈ shape,
        (kv.1 ∈ entry.input_schema.required.getD [] ↔ kv.2.typeName ≠ "ZodOptional") := by
  refine ⟨{ name := t.name, description := t.description,
            input_schema := zodToJsonSchema t.inputSchema }, ?_, rfl, rfl, ?_⟩
  · unfold getSchemas
    exact List.mem_map_of_mem _ ht
  · intro kv hkv
    rw [hs]
    have hmem : kv.1 ∈ zodRequired shape ↔ kv.2.typeName ≠ "ZodOptional" := by
      unfold zodRequired
      constructor
      · intro hin
        obtain ⟨kv', hkv', hfst⟩ := List.mem_map.mp hin
        have hkv'mem := (List.mem_filter.mp hkv').1
        have hcond := (List.mem_filter.mp hkv').2
        have heq : kv' = kv := List.inj_on_of_nodup_map hnd hkv'mem hkv hfst
        subst heq
        simpa [defIsOptionalCall] using hcond
      · intro hne
        refine List.mem_map.mpr ⟨kv, List.mem_filter.mpr ⟨hkv, ?_⟩, rfl⟩
        simpa [defIsOptionalCall] using hne
    have hgetD : (zodToJsonSchema (Zod.obj shape)).required.getD [] = zodRequired shape := by
      unfold zodToJsonSchema
      dsimp only
      by_cases hlen : (zodRequired shape).length > 0
      · rw [if_pos hlen]; rfl
      · rw [if_neg hlen]
        have hnil : zodRequired shape = [] := by
          cases hr : zodRequired shape with
          | nil => rfl
          | cons a as => rw [hr] at hlen; simp at hlen
        rw [hnil]; rfl
    rw [hgetD]
    exact hmem

/-- Witness for C5 (amended) on a registry with one tool: `path` and the
nullable `note` are required, the optional `x` is not. -/
theorem getSchemas_required_iff_witness :
    ∃ entry ∈ getSchemas [zodToolW], entry.name = zodToolW.name ∧
      entry.input_schema = zodToJsonSchema zodToolW.inputSchema ∧
      ∀ kv ∈ [("path", Zod.str), ("note", Zod.nullable Zod.str), ("x", Zod.opt Zod.str)],
        (kv.1 ∈ entry.input_schema.required.getD [] ↔ kv.2.typeName ≠ "ZodOptional") :=
  getSchemas_required_iff [zodToolW] zodToolW _ (List.mem_singleton.mpr rfl) rfl
    (by simp)

/-! ### Policy engine -/

/-- C2: the `deniedTools` check is the first step of the evaluate ladder:
whenever the session's denied list contains the tool's name the decision is
deny, regardless of the args (even args that would make a later branch
throw), the user rules and the built-in heuristics. -/
theorem evaluate_denied_tools_precedence (rules : List PolicyRule) (confirm : List String)
    (tool : ToolDefinition) (args : Json) (session : SessionContext) (l : List String)
    (hd : session.deniedTools = some l) (hm : tool.name ∈ l) :
    evaluate rules confirm tool args session =
      .ok (.deny ("Tool " ++ dquote ++ tool.name ++ dquote ++ " is denied for this user")) := by
  unfold evaluate
  rw [hd]
  have hc : l.contains tool.name = true := by
    simpa [List.contains] using hm
  rw [if_pos hc]

/-- Witness for C2: `bash` denied for the session even with null args and an
allow-all rule present. -/
theorem evaluate_denied_tools_precedence_witness :
    evaluate [{ name := "all", toolPattern := "*", decision := .allow }] defaultShellConfirmList
      bashToolDef Json.null { userId := "u1", chatId := "c1", deniedTools := some ["bash"] } =
      .ok (.deny ("Tool " ++ dquote ++ "bash" ++ dquote ++ " is denied for this user")) :=
  evaluate_denied_tools_precedence _ _ _ _ _ ["bash"] rfl (by simp [bashToolDef])

lemma applyRules_eq_none (toolName : String) (rules : List PolicyRule)
    (h : ∀ r ∈ rules, matchPattern toolName r.toolPattern = false) :
    applyRules toolName rules = none := by
  induction rules with
  | nil => rfl
  | cons r rs ih =>
    unfold applyRules
    rw [h r (List.mem_cons_self r rs), if_neg (by simp)]
    exact ih (fun x hx => h x (List.mem_cons_of_mem r hx))

lemma getCommandArg_obj_str (cmd : String) :
    getCommandArg (Json.obj [("command", Json.str cmd)]) = .ok cmd := by
  unfold getCommandArg Json.getField
  by_cases h : cmd = ""
  · subst h; rfl
  · simp [List.find?, Json.truthy, h]

/-- The safe-command predicate, written as the source's early returns, is
the claim's conjunction "matches a safe regex AND contains no blocked
construct". -/
lemma isSafe_eq_claimSafe (cmd : String) :
    isSafeReadOnlyShellCommand cmd = claimSafeBashCommand cmd := by
  unfold isSafeReadOnlyShellCommand claimSafeBashCommand
  by_cases h0 : jsTrim cmd == ""
  · rw [if_pos h0]
    have he : jsTrim cmd = "" := by simpa using h0
    rw [he]
    have : (safePatterns.any fun p => rmatch p (jsToLower "")) = false := by decide
    rw [this]
    rfl
  · rw [if_neg h0]
    by_cases hb : rtest blockedReg (jsTrim cmd)
    · rw [if_pos hb, hb]
      simp
    · rw [if_neg hb]
      have hbf : rtest blockedReg (jsTrim cmd) = false := by
        simpa using hb
      rw [hbf]
      simp

/-- C1: for a tool named `bash`/`shell` (case-insensitive), a session with
no allowed/denied lists and no user rule matching the tool name, `evaluate`
on args `{command}` decides exactly as the claim's ladder: safe read-only
pattern (and no chaining/redirection construct) → allow; else a confirm-list
substring in the command → require_approval; else allow. -/
theorem evaluate_bash_ladder (rules : List PolicyRule) (tool : ToolDefinition)
    (session : SessionContext) (cmd : String)
    (hr : ∀ r ∈ rules, matchPattern tool.name r.toolPattern = false)
    (hn : jsToLower tool.name = "bash" ∨ jsToLower tool.name = "shell")
    (ha : session.allowedTools = none) (hd : session.deniedTools = none) :
    ∃ d, evaluate rules defaultShellConfirmList tool
        (Json.obj [("command", Json.str cmd)]) session = .ok d ∧
      d.kind = claimBashKind cmd := by
  unfold evaluate
  rw [ha, hd, applyRules_eq_none tool.name rules hr, getCommandArg_obj_str]
  have hro : (readOnlyTools.any fun t => jsIncludes (jsToLower tool.name) t) = false := by
    cases hn with
    | inl h => rw [h]; decide
    | inr h => rw [h]; decide
  have hbs : (jsToLower tool.name == "bash" || jsToLower tool.name == "shell") = true := by
    cases hn with
    | inl h => rw [h]; decide
    | inr h => rw [h]; decide
  dsimp only
  rw [hro, hbs]
  simp only [Bool.false_eq_true, if_false, if_true]
  unfold claimBashKind
  rw [← isSafe_eq_claimSafe]
  by_cases hsafe : isSafeReadOnlyShellCommand cmd
  · rw [hsafe]
    simp only [if_true]
    exact ⟨.allow, rfl, rfl⟩
  · have hsf : isSafeReadOnlyShellCommand cmd = false := by simpa using hsafe
    rw [hsf]
    simp only [Bool.false_eq_true, if_false]
    by_cases hconf : (defaultShellConfirmList.any fun item => jsIncludes cmd item)
    · rw [hconf]
      simp only [if_true]
      exact ⟨_, rfl, rfl⟩
    · have hcf : (defaultShellConfirmList.any fun item => jsIncludes cmd item) = false := by
        simpa using hconf
      rw [hcf]
      simp only [Bool.false_eq_true, if_false]
      exact ⟨.allow, rfl, rfl⟩

/-- Witness for C1 at `rm -rf /tmp/x` (confirm-list hit). -/
theorem evaluate_bash_ladder_witness :
    ∃ d, evaluate [] defaultShellConfirmList bashToolDef
        (Json.obj [("command", Json.str "rm -rf /tmp/x")]) sess0 = .ok d ∧
      d.kind = claimBashKind "rm -rf /tmp/x" :=
  evaluate_bash_ladder [] bashToolDef sess0 "rm -rf /tmp/x" (by simp)
    (Or.inl rfl) rfl rfl

/-- C3 counterexample: the claim asserts `evaluate` is total for args of any
shape and never throws.  But `(args as { command?: string })?.command || ''`
does not validate the type of a truthy `command` value: for the tool `bash`
with args `{command: 1}` the subsequent `command.trim()` raises a
`TypeError`, so `evaluate` rejects instead of returning a decision. -/
theorem evaluate_throws_on_nonstring_command :
    evaluate [] defaultShellConfirmList bashToolDef (Json.obj [("command", Json.num 1)]) sess0 =
      .error "TypeError: command.trim is not a function" := rfl

lemma getCommandArg_ok_of_fieldOk (args : Json) (h : commandFieldOk args) :
    ∃ c, getCommandArg args = .ok c := by
  unfold getCommandArg
  cases hf : args.getField "command" with
  | none => exact ⟨"", rfl⟩
  | some v =>
    dsimp only
    by_cases ht : v.truthy
    · obtain ⟨s, rfl⟩ := h v hf ht
      rw [ht]
      exact ⟨s, rfl⟩
    · have htf : v.truthy = false := by simpa using ht
      rw [htf]
      exact ⟨"", rfl⟩

lemma evaluate_ok_of_fieldOk (rules : List PolicyRule) (confirm : List String)
    (tool : ToolDefinition) (args : Json) (session : SessionContext)
    (h : commandFieldOk args) :
    ∃ d, evaluate rules confirm tool args session = .ok d := by
  obtain ⟨c, hc⟩ := getCommandArg_ok_of_fieldOk args h
  unfold evaluate
  rw [hc]
  dsimp only
  repeat' first
  | exact ⟨_, rfl⟩
  | split

/-- C3 (amended): `evaluate` returns exactly one of allow / deny /
require_approval — and never throws — for every tool, session, rule set and
args whose `command` property, when present and truthy, is a string (the
claim as stated fails: `{command: 1}` with tool `bash` raises a
`TypeError`).  For args of unexpected shape on a tool matching no rule and
no built-in heuristic, the decision is deterministically require_approval
with a prompt built from the raw argument JSON, truncated to 100
characters. -/
theorem evaluate_total_and_default_prompt :
    (∀ (rules : List PolicyRule) (confirm : List String) (tool : ToolDefinition)
       (args : Json) (session : SessionContext), commandFieldOk args →
       ∃ d, evaluate rules confirm tool args session = .ok d) ∧
    (∀ (rules : List PolicyRule) (confirm : List String) (tool : ToolDefinition)
       (args : Json) (session : SessionContext),
       session.deniedTools = none → session.allowedTools = none →
       applyRules tool.name rules = none →
       (readOnlyTools.any fun t => jsIncludes (jsToLower tool.name) t) = false →
       (jsToLower tool.name == "bash" || jsToLower tool.name == "shell") = false →
       (writeTools.any fun t => jsIncludes (jsToLower tool.name) t) = false →
       evaluate rules confirm tool args session =
         .ok (.require_approval ("Permission Request\n\nTool: `" ++ tool.name ++
           "`\nArgs: `" ++ jsTake (jsonStringify args) 100 ++ "...`"))) := by
  constructor
  · exact evaluate_ok_of_fieldOk
  · intro rules confirm tool args session hdl hal hrules hro hbs hw
    unfold evaluate
    rw [hdl, hal, hrules]
    dsimp only
    rw [hro, hbs, hw]
    simp only [Bool.false_eq_true, if_false]

/-- Witness for C3 (amended): `mytool` with Gemini-style raw args gets the
generic require_approval prompt, and totality holds there. -/
theorem evaluate_total_and_default_prompt_witness :
    (∃ d, evaluate [] defaultShellConfirmList mytoolDef rawArgs sess0 = .ok d) ∧
    evaluate [] defaultShellConfirmList mytoolDef rawArgs sess0 =
      .ok (.require_approval ("Permission Request\n\nTool: `" ++ mytoolDef.name ++
        "`\nArgs: `" ++ jsTake (jsonStringify rawArgs) 100 ++ "...`")) := by
  constructor
  · exact evaluate_total_and_default_prompt.1 [] defaultShellConfirmList mytoolDef rawArgs sess0
      (by intro v hv; simp [rawArgs, Json.getField, List.find?] at hv)
  · exact evaluate_total_and_default_prompt.2 [] defaultShellConfirmList mytoolDef rawArgs sess0
      rfl rfl rfl (by decide) (by decide) (by decide)

/-! ### Agent gateway: stream consumption -/

lemma consume_of_streamCalls_none :
    ∀ (evts : List LLMEvent) (fr : String) (pd : List PendingCall) (prev : Option String),
      streamCalls evts pd = none →
      ∃ pre last, consumeLLM evts fr pd prev = .ret (pre ++ [last]) ∧ terminalEvent last := by
  intro evts
  induction evts with
  | nil => intro fr pd prev h; simp [streamCalls] at h
  | cons ev rest ih =>
    intro fr pd prev h
    cases ev with
    | text_delta c =>
      rw [streamCalls] at h
      obtain ⟨pre, last, hc, hterm⟩ := ih (fr ++ c) pd prev h
      refine ⟨.text_delta c :: pre, last, ?_, hterm⟩
      rw [consumeLLM.eq_def]
      dsimp only
      rw [hc]
      rfl
    | tool_call id name args meta =>
      rw [streamCalls] at h
      rw [consumeLLM.eq_def]
      dsimp only
      by_cases hname : name != ""
      · rw [if_pos hname] at h ⊢
        exact ih fr _ prev h
      · have hnf : (name != "") = false := by simpa using hname
        rw [hnf] at h ⊢
        simp only [Bool.false_eq_true, if_false]
        exact ih fr pd prev h
    | tool_call_delta id nm frag =>
      rw [streamCalls] at h
      rw [consumeLLM.eq_def]
      dsimp only
      exact ih fr pd prev h
    | error m =>
      exact ⟨[], .error m, rfl, Or.inr ⟨m, rfl⟩⟩
    | done rid =>
      rw [streamCalls] at h
      rw [consumeLLM.eq_def]
      dsimp only
      by_cases hpd : pd.isEmpty
      · rw [if_pos hpd]
        exact ⟨[], .done fr, rfl, Or.inl ⟨fr, rfl⟩⟩
      · have hpf : pd.isEmpty = false := by simpa using hpd
        rw [hpf] at h ⊢
        simp only [Bool.false_eq_true, if_false] at h ⊢
        exact ih fr pd _ h

lemma consume_of_streamCalls_some :
    ∀ (evts : List LLMEvent) (fr : String) (pd : List PendingCall) (prev : Option String)
      (pd' : List PendingCall),
      streamCalls evts pd = some pd' →
      ∃ evs fr' prev', consumeLLM evts fr pd prev = .next evs fr' pd' prev' ∧
        (∀ e ∈ evs, ∃ c, e = AgentEvent.text_delta c) := by
  intro evts
  induction evts with
  | nil =>
    intro fr pd prev pd' h
    rw [streamCalls] at h
    cases h
    exact ⟨[], fr, prev, rfl, by simp⟩
  | cons ev rest ih =>
    intro fr pd prev pd' h
    cases ev with
    | text_delta c =>
      rw [streamCalls] at h
      obtain ⟨evs, fr', prev', hc, htext⟩ := ih (fr ++ c) pd prev pd' h
      refine ⟨.text_delta c :: evs, fr', prev', ?_, ?_⟩
      · rw [consumeLLM.eq_def]
        dsimp only
        rw [hc]
      · intro e he
        rcases List.mem_cons.mp he with he | he
        · exact ⟨c, he⟩
        · exact htext e he
    | tool_call id name args meta =>
      rw [streamCalls] at h
      rw [consumeLLM.eq_def]
      dsimp only
      by_cases hname : name != ""
      · rw [if_pos hname] at h ⊢
        exact ih fr _ prev pd' h
      · have hnf : (name != "") = false := by simpa using hname
        rw [hnf] at h ⊢
        simp only [Bool.false_eq_true, if_false]
        exact ih fr pd prev pd' h
    | tool_call_delta id nm frag =>
      rw [streamCalls] at h
      rw [consumeLLM.eq_def]
      dsimp only
      exact ih fr pd prev pd' h
    | error m =>
      rw [streamCalls] at h
      cases h
    | done rid =>
      rw [streamCalls] at h
      rw [consumeLLM.eq_def]
      dsimp only
      by_cases hpd : pd.isEmpty
      · rw [hpd] at h
        cases h
      · have hpf : pd.isEmpty = false := by simpa using hpd
        rw [hpf] at h ⊢
        simp only [Bool.false_eq_true, if_false] at h ⊢
        exact ih fr pd _ pd' h

lemma streamCalls_args :
    ∀ (evts : List LLMEvent) (pd pd' : List PendingCall),
      streamCalls evts pd = some pd' →
      ∀ tc ∈ pd', tc ∈ pd ∨
        ∃ ev ∈ evts, ∃ meta, ev = LLMEvent.tool_call tc.id tc.name tc.args meta := by
  intro evts
  induction evts with
  | nil =>
    intro pd pd' h tc htc
    rw [streamCalls] at h
    cases h
    exact Or.inl htc
  | cons ev rest ih =>
    intro pd pd' h tc htc
    cases ev with
    | text_delta c =>
      rw [streamCalls] at h
      rcases ih pd pd' h tc htc with hm | ⟨ev', hev', meta, hq⟩
      · exact Or.inl hm
      · exact Or.inr ⟨ev', List.mem_cons_of_mem _ hev', meta, hq⟩
    | tool_call id name args meta =>
      rw [streamCalls] at h
      by_cases hname : name != ""
      · rw [if_pos hname] at h
        rcases ih _ pd' h tc htc with hm | ⟨ev', hev', meta', hq⟩
        · rcases List.mem_append.mp hm with hm | hm
          · exact Or.inl hm
          · have : tc = ⟨id, name, args, meta⟩ := by simpa using hm
            subst this
            exact Or.inr ⟨.tool_call id name args meta, List.mem_cons_self _ _, meta, rfl⟩
        · exact Or.inr ⟨ev', List.mem_cons_of_mem _ hev', meta', hq⟩
      · have hnf : (name != "") = false := by simpa using hname
        rw [hnf] at h
        simp only [Bool.false_eq_true, if_false] at h
        rcases ih pd pd' h tc htc with hm | ⟨ev', hev', meta', hq⟩
        · exact Or.inl hm
        · exact Or.inr ⟨ev', List.mem_cons_of_mem _ hev', meta', hq⟩
    | tool_call_delta id nm frag =>
      rw [streamCalls] at h
      rcases ih pd pd' h tc htc with hm | ⟨ev', hev', meta', hq⟩
      · exact Or.inl hm
      · exact Or.inr ⟨ev', List.mem_cons_of_mem _ hev', meta', hq⟩
    | error m =>
      rw [streamCalls] at h
      cases h
    | done rid =>
      rw [streamCalls] at h
      by_cases hpd : pd.isEmpty
      · rw [hpd] at h
        cases h
      · have hpf : pd.isEmpty = false := by simpa using hpd
        rw [hpf] at h
        simp only [Bool.false_eq_true, if_false] at h
        rcases ih pd pd' h tc htc with hm | ⟨ev', hev', meta', hq⟩
        · exact Or.inl hm
        · exact Or.inr ⟨ev', List.mem_cons_of_mem _ hev', meta', hq⟩

/-! ### Agent gateway: tool-call processing -/

lemma processOne_crash_none (env : GatewayEnv) (session : SessionContext)
    (round idx : Nat) (tc : PendingCall) (h : commandFieldOk tc.args) :
    (processOne env session round idx tc).crash = none := by
  unfold processOne
  cases hreg : env.registryGet tc.name with
  | none => rfl
  | some toolDef =>
    dsimp only
    obtain ⟨d, hd⟩ :=
      evaluate_ok_of_fieldOk env.rules env.shellConfirmList toolDef tc.args session h
    rw [hd]
    cases d <;> rfl

lemma processCalls_crash_none (env : GatewayEnv) (session : SessionContext) (round : Nat) :
    ∀ (pending : List PendingCall) (idx : Nat),
      (∀ tc ∈ pending, commandFieldOk tc.args) →
      (processCalls env session round idx pending).crash = none := by
  intro pending
  induction pending with
  | nil => intro idx _; rfl
  | cons tc rest ih =>
    intro idx hall
    rw [processCalls]
    refine (seqCalls_crash_none _ _).mpr ⟨?_, ?_⟩
    · exact processOne_crash_none env session round idx tc (hall tc (List.mem_cons_self _ _))
    · exact ih (idx + 1) (fun x hx => hall x (List.mem_cons_of_mem _ hx))

lemma processOne_toolStart (env : GatewayEnv) (session : SessionContext)
    (round idx : Nat) (tc : PendingCall)
    (h : (processOne env session round idx tc).crash = none) :
    countToolStart (processOne env session round idx tc).events = 1 := by
  unfold processOne at h ⊢
  cases hreg : env.registryGet tc.name with
  | none => simp [countToolStart, isToolStartEv]
  | some toolDef =>
    rw [hreg] at h
    dsimp only at h ⊢
    cases heval : evaluate env.rules env.shellConfirmList toolDef tc.args session with
    | error e =>
      rw [heval] at h
      simp at h
    | ok decision =>
      cases decision <;> simp [countToolStart, isToolStartEv]

lemma processCalls_toolStart (env : GatewayEnv) (session : SessionContext) (round : Nat) :
    ∀ (pending : List PendingCall) (idx : Nat),
      (processCalls env session round idx pending).crash = none →
      countToolStart (processCalls env session round idx pending).events = pending.length := by
  intro pending
  induction pending with
  | nil => intro idx _; rfl
  | cons tc rest ih =>
    intro idx hcrash
    rw [processCalls] at hcrash ⊢
    obtain ⟨h1, h2⟩ := (seqCalls_crash_none _ _).mp hcrash
    rw [seqCalls_events_of_none _ _ h1]
    unfold countToolStart
    rw [List.filter_append, List.length_append]
    have ha := processOne_toolStart env session round idx tc h1
    have hb := ih (idx + 1) h2
    unfold countToolStart at ha hb
    rw [ha, hb, List.length_cons, Nat.add_comm]

lemma countToolStart_zero_of_text (evs : List AgentEvent)
    (h : ∀ e ∈ evs, ∃ c, e = AgentEvent.text_delta c) :
    countToolStart evs = 0 := by
  unfold countToolStart
  have : evs.filter isToolStartEv = [] := by
    rw [List.filter_eq_nil_iff]
    intro e he
    obtain ⟨c, rfl⟩ := h e he
    simp [isToolStartEv]
  rw [this]
  rfl

lemma getLast?_append_some {α : Type} (l1 l2 : List α) (x : α)
    (h : l2.getLast? = some x) : (l1 ++ l2).getLast? = some x := by
  induction l1 with
  | nil => simpa using h
  | cons a as ih =>
    rw [List.cons_append, List.getLast?_cons, ih]
    rfl

/-! ### Agent gateway: the iteration loop -/

lemma handleLoop_ret (env : GatewayEnv) (session : SessionContext)
    (N fuel round : Nat) (fr : String) (prev : Option String)
    (lastRes : List LLMToolResult) (evs : List AgentEvent)
    (h : consumeLLM (env.chatScript round) fr [] prev = .ret evs) :
    handleLoop env session N (fuel + 1) round fr prev lastRes =
      { events := evs, audits := [], crash := none } := by
  rw [handleLoop, h]

lemma handleLoop_next_empty (env : GatewayEnv) (session : SessionContext)
    (N fuel round : Nat) (fr : String) (prev : Option String)
    (lastRes : List LLMToolResult) (evs : List AgentEvent) (fr' : String)
    (prev' : Option String)
    (h : consumeLLM (env.chatScript round) fr [] prev = .next evs fr' [] prev') :
    handleLoop env session N (fuel + 1) round fr prev lastRes =
      { events := evs ++ [.done fr'], audits := [], crash := none } := by
  rw [handleLoop, h]
  rfl

lemma handleLoop_next_calls (env : GatewayEnv) (session : SessionContext)
    (N fuel round : Nat) (fr : String) (prev : Option String)
    (lastRes : List LLMToolResult) (evs : List AgentEvent) (fr' : String)
    (prev' : Option String) (pd : List PendingCall)
    (h : consumeLLM (env.chatScript round) fr [] prev = .next evs fr' pd prev')
    (hpd : pd.isEmpty = false)
    (hcr : (processCalls env session round 0 pd).crash = none) :
    handleLoop env session N (fuel + 1) round fr prev lastRes =
      { events := evs ++ (processCalls env session round 0 pd).events ++
          (handleLoop env session N fuel (round + 1) fr' prev'
            (processCalls env session round 0 pd).results).events,
        audits := (processCalls env session round 0 pd).audits ++
          (handleLoop env session N fuel (round + 1) fr' prev'
            (processCalls env session round 0 pd).results).audits,
        crash := (handleLoop env session N fuel (round + 1) fr' prev'
          (processCalls env session round 0 pd).results).crash } := by
  rw [handleLoop, h]
  dsimp only
  rw [hpd]
  simp only [Bool.false_eq_true, if_false]
  rw [hcr]

lemma pending_args_ok (env : GatewayEnv)
    (hargs : ∀ i ev, ev ∈ env.chatScript i → eventArgsOk ev)
    (round : Nat) (pd : List PendingCall)
    (hsc : streamCalls (env.chatScript round) [] = some pd) :
    ∀ tc ∈ pd, commandFieldOk tc.args := by
  intro tc htc
  rcases streamCalls_args _ _ _ hsc tc htc with hm | ⟨ev, hev, meta, hq⟩
  · cases hm
  · exact hargs round ev hev tc.id tc.name tc.args meta hq

lemma handleLoop_shape (env : GatewayEnv) (session : SessionContext) (N : Nat)
    (hargs : ∀ i ev, ev ∈ env.chatScript i → eventArgsOk ev) :
    ∀ (fuel round : Nat) (fr : String) (prev : Option String)
      (lastRes : List LLMToolResult),
      (handleLoop env session N fuel round fr prev lastRes).crash = none ∧
      ∃ last, (handleLoop env session N fuel round fr prev lastRes).events.getLast? = some last ∧
        terminalEvent last := by
  intro fuel
  induction fuel with
  | zero =>
    intro round fr prev lastRes
    exact ⟨rfl, ⟨.error (capMessage N), rfl, Or.inr ⟨_, rfl⟩⟩⟩
  | succ fuel ih =>
    intro round fr prev lastRes
    cases hsc : streamCalls (env.chatScript round) [] with
    | none =>
      obtain ⟨pre, last, hc, hterm⟩ := consume_of_streamCalls_none _ fr [] prev hsc
      rw [handleLoop_ret env session N fuel round fr prev lastRes _ hc]
      exact ⟨rfl, ⟨last, getLast?_append_some pre [last] last rfl, hterm⟩⟩
    | some pd =>
      obtain ⟨evs, fr', prev', hc, _⟩ := consume_of_streamCalls_some _ fr [] prev pd hsc
      cases hpd : pd.isEmpty with
      | true =>
        have hnil : pd = [] := by simpa using hpd
        subst hnil
        rw [handleLoop_next_empty env session N fuel round fr prev lastRes _ _ _ hc]
        exact ⟨rfl, ⟨.done fr', getLast?_append_some evs [.done fr'] _ rfl, Or.inl ⟨_, rfl⟩⟩⟩
      | false =>
        have hcr : (processCalls env session round 0 pd).crash = none :=
          processCalls_crash_none env session round pd 0 (pending_args_ok env hargs round pd hsc)
        rw [handleLoop_next_calls env session N fuel round fr prev lastRes _ _ _ _ hc hpd hcr]
        obtain ⟨hcrash', last, hlast, hterm⟩ := ih (round + 1) fr' prev'
          (processCalls env session round 0 pd).results
        refine ⟨hcrash', ⟨last, ?_, hterm⟩⟩
        rw [List.append_assoc]
        exact getLast?_append_some _ _ _ (getLast?_append_some _ _ _ hlast)

lemma roundCount_range_shift (env : GatewayEnv) (n r : Nat) :
    ((List.range (n + 1)).map (fun k => roundCallCount (env.chatScript (r + k)))).sum =
      roundCallCount (env.chatScript r) +
      ((List.range n).map (fun k => roundCallCount (env.chatScript (r + 1 + k)))).sum := by
  rw [List.range_succ_eq_map, List.map_cons, List.sum_cons, List.map_map]
  have hfun : ((fun k => roundCallCount (env.chatScript (r + k))) ∘ Nat.succ) =
      fun k => roundCallCount (env.chatScript (r + 1 + k)) := by
    funext k
    simp only [Function.comp_apply, Nat.succ_eq_add_one]
    congr 2
    omega
  rw [hfun, Nat.add_zero]

lemma handleLoop_cap (env : GatewayEnv) (session : SessionContext) (N : Nat)
    (hargs : ∀ i ev, ev ∈ env.chatScript i → eventArgsOk ev)
    (hcalls : ∀ i, roundEmitsCalls (env.chatScript i) = true) :
    ∀ (fuel round : Nat) (fr : String) (prev : Option String)
      (lastRes : List LLMToolResult),
      (handleLoop env session N fuel round fr prev lastRes).events.getLast? =
        some (.error (capMessage N)) ∧
      countToolStart (handleLoop env session N fuel round fr prev lastRes).events =
        ((List.range fuel).map (fun k => roundCallCount (env.chatScript (round + k)))).sum := by
  intro fuel
  induction fuel with
  | zero =>
    intro round fr prev lastRes
    exact ⟨rfl, rfl⟩
  | succ fuel ih =>
    intro round fr prev lastRes
    have hc0 := hcalls round
    unfold roundEmitsCalls at hc0
    cases hsc : streamCalls (env.chatScript round) [] with
    | none => rw [hsc] at hc0; cases hc0
    | some pd =>
      rw [hsc] at hc0
      dsimp only at hc0
      have hpd : pd.isEmpty = false := by simpa using hc0
      obtain ⟨evs, fr', prev', hc, htext⟩ := consume_of_streamCalls_some _ fr [] prev pd hsc
      have hcr : (processCalls env session round 0 pd).crash = none :=
        processCalls_crash_none env session round pd 0 (pending_args_ok env hargs round pd hsc)
      rw [handleLoop_next_calls env session N fuel round fr prev lastRes _ _ _ _ hc hpd hcr]
      obtain ⟨hlast, hcount⟩ := ih (round + 1) fr' prev'
        (processCalls env session round 0 pd).results
      constructor
      · rw [List.append_assoc]
        exact getLast?_append_some _ _ _ (getLast?_append_some _ _ _ hlast)
      · unfold countToolStart
        rw [List.filter_append, List.filter_append, List.length_append, List.length_append]
        have h1 : (evs.filter isToolStartEv).length = 0 := countToolStart_zero_of_text evs htext
        have h2 := processCalls_toolStart env session round pd 0 hcr
        unfold countToolStart at h2 hcount
        rw [h1, h2, hcount, roundCount_range_shift]
        have hrc : roundCallCount (env.chatScript round) = pd.length := by
          unfold roundCallCount
          rw [hsc]
        rw [hrc]
        omega

/-- C4 counterexample: the claim says the last emitted event is always
`done` or `error`, never `tool_start`.  When the LLM emits a `bash` tool
call whose `command` argument is the number 1, `policy.evaluate` throws
after `tool_start` was emitted; the generator aborts and the event stream
ends on `tool_start` with no terminal event. -/
theorem handleMessage_crash_after_tool_start :
    (handleMessage crashEnv sess0 none).events =
      [.tool_start "c1" "bash" (Json.obj [("command", Json.num 1)])] ∧
    (handleMessage crashEnv sess0 none).crash =
      some "TypeError: command.trim is not a function" := ⟨rfl, rfl⟩

/-- C4 (amended): provided every tool-call event the LLM emits carries args
whose `command` field, when present and truthy, is a string (so
`policy.evaluate` cannot throw — see C3), every `handleMessage` run emits a
finite event list whose last event is exactly `done` or `error` (hence never
`tool_start`, `tool_pending`, `tool_result` or `text_delta`), with no
uncaught exception; and if the LLM reaches the tool-execution phase with at
least one call on every round, exactly `maxIterations` (`cfg || 10`) rounds
of tool execution occur, followed by a final `error` naming the cap. -/
theorem handleMessage_terminates (env : GatewayEnv) (session : SessionContext)
    (cfg : Option Nat)
    (hargs : ∀ i ev, ev ∈ env.chatScript i → eventArgsOk ev) :
    (handleMessage env session cfg).crash = none ∧
    (∃ last, (handleMessage env session cfg).events.getLast? = some last ∧
      terminalEvent last) ∧
    ((∀ i, roundEmitsCalls (env.chatScript i) = true) →
      (handleMessage env session cfg).events.getLast? =
        some (.error (capMessage (normalizeIter cfg))) ∧
      countToolStart (handleMessage env session cfg).events =
        ((List.range (normalizeIter cfg)).map
          (fun i => roundCallCount (env.chatScript i))).sum) := by
  unfold handleMessage
  obtain ⟨hcr, hlast⟩ :=
    handleLoop_shape env session (normalizeIter cfg) hargs (normalizeIter cfg) 0 "" none []
  refine ⟨hcr, hlast, fun hcalls => ?_⟩
  obtain ⟨hl, hc⟩ := handleLoop_cap env session (normalizeIter cfg) hargs hcalls
    (normalizeIter cfg) 0 "" none []
  refine ⟨hl, ?_⟩
  rw [hc]
  have hmap : (List.range (normalizeIter cfg)).map
        (fun k => roundCallCount (env.chatScript (0 + k))) =
      (List.range (normalizeIter cfg)).map (fun i => roundCallCount (env.chatScript i)) := by
    apply List.map_congr_left
    intro k _
    rw [Nat.zero_add]
  rw [hmap]

/-- Witness for C4 (amended): with `maxIterations = 2` and an LLM that
requests an unregistered tool every round, the run is crash-free, the last
event is the cap error, and exactly two rounds of one tool execution each
occur. -/
theorem handleMessage_terminates_witness :
    (handleMessage capEnv sess0 (some 2)).crash = none ∧
    (∃ last, (handleMessage capEnv sess0 (some 2)).events.getLast? = some last ∧
      terminalEvent last) ∧
    (handleMessage capEnv sess0 (some 2)).events.getLast? =
      some (.error (capMessage 2)) ∧
    countToolStart (handleMessage capEnv sess0 (some 2)).events = 2 := by
  have hargs : ∀ i ev, ev ∈ capEnv.chatScript i → eventArgsOk ev := by
    intro i ev hev
    simp only [capEnv, List.mem_cons, List.mem_singleton] at hev
    rcases hev with h | h | h
    · subst h
      intro id n a m heq
      cases heq
      intro v hv
      simp [Json.getField, List.find?] at hv
    · subst h
      intro id n a m heq
      cases heq
    · cases h
  have h := handleMessage_terminates capEnv sess0 (some 2) hargs
  have hcap := h.2.2 (fun _ => rfl)
  refine ⟨h.1, h.2.1, hcap.1, ?_⟩
  rw [hcap.2]
  rfl

/-! ### Chat-completions adapter error handling -/

/-- C6 counterexample: the claim says malformed accumulated tool-call
argument strings become a *recoverable tool-result error fed back to the
LLM on the next round*.  They do not: the parser yields an `error` LLM
event (`Failed to parse tool args: …`) and the gateway treats any `error`
event as terminal — it emits an `error` agent event and returns, with no
`tool_result` ever produced and no next round.  (The malformed SSE frame
`data: garbage` is skipped, as claimed.) -/
theorem malformed_args_error_is_terminal :
    parseSSELines demoChunkParse demoArgsParse ["data: garbage", "data: F1", "data: F2"] [] =
      [.tool_call_delta "c1" (some "bash") "oops",
       .error "Failed to parse tool args: oops"] ∧
    (handleMessage c6Env sess0 none).events = [.error "Failed to parse tool args: oops"] ∧
    (handleMessage c6Env sess0 none).events.filter isToolResultEv = [] :=
  ⟨rfl, rfl, rfl⟩

/-- C6 (amended): (a) a malformed SSE frame — a `data:` line whose payload
fails `JSON.parse` — is skipped: the stream continues with no event and
unchanged parser state; (b) an accumulated tool-call argument string that
fails to parse as JSON at flush time yields an `error` LLM event naming the
raw string; (c) the gateway returns immediately on an `error` LLM event,
and (d) a turn whose round stream opens with an `error` event ends as
exactly that single terminal agent `error` — the failure is not fed back to
the LLM as a tool result. -/
theorem sse_frame_skip_and_args_error_flow :
    (∀ (pc : String → Option ChatChunk) (jp : String → Option Json) (line : String)
       (rest : List String) (st : ParserState),
       jsTrim line ≠ "" → jsTrim line ≠ "data: [DONE]" →
       jsStartsWith (jsTrim line) "data: " = true → jsDropChars (jsTrim line) 6 ≠ "[DONE]" →
       pc (jsDropChars (jsTrim line) 6) = none →
       parseSSELines pc jp (line :: rest) st = parseSSELines pc jp rest st) ∧
    (∀ (jp : String → Option Json) (idx : Nat) (a : Accum) (rest : ParserState),
       a.id ≠ "" → a.name ≠ "" → a.args ≠ "" → jp a.args = none →
       finishEvents jp ((idx, a) :: rest) =
         .error ("Failed to parse tool args: " ++ a.args) :: finishEvents jp rest) ∧
    (∀ (m : String) (rest : List LLMEvent) (fr : String) (pd : List PendingCall)
       (prev : Option String),
       consumeLLM (.error m :: rest) fr pd prev = .ret [.error m]) ∧
    (∀ (env : GatewayEnv) (session : SessionContext) (N k round : Nat) (fr : String)
       (prev : Option String) (lastRes : List LLMToolResult) (m : String)
       (rest : List LLMEvent),
       env.chatScript round = .error m :: rest →
       handleLoop env session N (k + 1) round fr prev lastRes =
         { events := [.error m], audits := [], crash := none }) := by
  refine ⟨?_, ?_, ?_, ?_⟩
  · intro pc jp line rest st h1 h2 h3 h4 h5
    have e1 : (jsTrim line == "") = false := by simpa using h1
    have e2 : (jsTrim line == "data: [DONE]") = false := by simpa using h2
    have e4 : (jsDropChars (jsTrim line) 6 == "[DONE]") = false := by simpa using h4
    rw [parseSSELines]
    dsimp only
    rw [e1, e2, h3, e4, h5]
    simp
  · intro jp idx a rest h1 h2 h3 h4
    have e1 : (a.id != "") = true := by simpa using h1
    have e2 : (a.name != "") = true := by simpa using h2
    have e3 : (a.args == "") = false := by simpa using h3
    rw [finishEvents]
    rw [e1, e2, e3, h4]
    simp
  · intro m rest fr pd prev
    rfl
  · intro env session N k round fr prev lastRes m rest h
    rw [handleLoop, h]
    rfl

/-- Witness for C6 (amended) at concrete frames/state/stream. -/
theorem sse_frame_skip_and_args_error_flow_witness :
    parseSSELines demoChunkParse demoArgsParse ["data: junk"] [] =
      parseSSELines demoChunkParse demoArgsParse [] [] ∧
    finishEvents demoArgsParse [(0, { id := "c1", name := "bash", args := "oops" })] =
      .error ("Failed to parse tool args: " ++ "oops") :: finishEvents demoArgsParse [] ∧
    consumeLLM [.error "boom"] "" [] none = .ret [.error "boom"] ∧
    handleLoop errEnv sess0 10 10 0 "" none [] =
      { events := [.error "boom"], audits := [], crash := none } := by
  refine ⟨?_, ?_, ?_, ?_⟩
  · exact sse_frame_skip_and_args_error_flow.1 demoChunkParse demoArgsParse "data: junk" [] []
      (by decide) (by decide) (by decide) (by decide) rfl
  · exact sse_frame_skip_and_args_error_flow.2.1 demoArgsParse 0
      { id := "c1", name := "bash", args := "oops" } [] (by decide) (by decide) (by decide) rfl
  · exact sse_frame_skip_and_args_error_flow.2.2.1 "boom" [] "" [] none
  · exact sse_frame_skip_and_args_error_flow.2.2.2 errEnv sess0 10 9 0 "" none [] "boom" [] rfl

end OpenVia
